import Mathlib

/-!
Verification development for the `brief_qualite_eau_france` ingestion pipeline.

The repository's pipeline (under `src/ingest_azure/`) has three stages over a
blob container:

* Fetcher (`01_ingest_zip.py`, `01_ingest_data.py`): download source ZIP
  archives by URL into `zip/<filename>`.
* Extractor (`02_ingest_data.py`): unzip every archive under `zip/` into
  `unzip/<archive-base>/<normalized-entry-path>`, with a per-archive
  `_SUCCESS` marker.
* Tabularizer (`03_build_parquet.py`, `04_build_parquet.py`): decode, parse
  and concatenate the `DIS_*.txt` files of each year directory and write the
  result as parquet output (chunked into part files in the `04` variant),
  with a per-year `_SUCCESS` marker.

The blob container is modelled as an association list from blob path to blob
content; each pipeline action additionally records an event
(download / upload / network fetch) so that "performs no processing" claims
can be stated as facts about the event log.  Python strings are modelled as
Lean `String` (or `List Char` for the character-level helpers), bytes as
`List Nat` with values below 256.
-/

namespace EauFrance

/-- A blob store: association list from blob path to blob body.
Lookup takes the first binding, upload prepends after removing the old
binding, so a store is observationally a finite map. -/
abbrev Store := List (String × String)

/-- Lookup of a blob body by path. -/
def storeGet : Store → String → Option String
  | [], _ => none
  | (k, v) :: rest, p => if k = p then some v else storeGet rest p

/-- `_blob_exists` / `blob_exists` of the scripts: the existence probe
(`get_blob_properties`, with `ResourceNotFoundError` mapped to `False`). -/
def blob_exists (s : Store) (p : String) : Bool :=
  (storeGet s p).isSome

/-- `upload_blob`: (over)write the body stored at a path. -/
def storeUpload (s : Store) (p d : String) : Store :=
  (p, d) :: s.filter (fun kv => kv.1 ≠ p)

/-- Observable side effects of a pipeline run: blob downloads, blob uploads
and HTTP fetches. -/
inductive Event where
  | download : String → Event
  | upload : String → Event
  | fetch : String → Event
deriving DecidableEq, Repr

/-! ### Path helpers (`posixpath.basename`, `os.path.splitext`, url path) -/

/-- `posixpath.basename`: the part of a path after the last `/`. -/
def basename (p : String) : String :=
  String.mk ((p.data.reverse.takeWhile (fun c => c ≠ '/')).reverse)

/-- Index of the last occurrence of a character satisfying `p`, if any. -/
def rfindIdx (p : Char → Bool) (cs : List Char) : Option Nat :=
  match cs.reverse.findIdx? p with
  | none => none
  | some j => some (cs.length - 1 - j)

/-- The root part of `os.path.splitext` applied to a basename: split off the
extension at the last dot, unless every character before that dot is itself a
dot (so `.foo` and `..` keep their name). -/
def splitextRoot (name : String) : String :=
  match rfindIdx (fun c => c = '.') name.data with
  | none => name
  | some d =>
    if (name.data.take d).any (fun c => c ≠ '.') then String.mk (name.data.take d)
    else name

/-! ### Extractor (`02_ingest_data.py`) -/

/-- `ZIP_PREFIX`: where the fetch stage deposited the `.zip` archives. -/
def zipRoot : String := "zip/"

/-- `OUT_PREFIX`: where extracted files are written. -/
def unzipRoot : String := "unzip/"

/-- `_marker_path`: the per-archive `_SUCCESS` marker path. -/
def markerPath (zipBase : String) : String :=
  unzipRoot ++ zipBase ++ "/_SUCCESS"

/-- One entry of a ZIP archive's `infolist()`: internal file name, directory
flag, and (for non-directories) the entry's bytes, modelled opaquely. -/
structure Entry where
  filename : String
  isDir : Bool
  data : String
deriving DecidableEq, Repr

/-- One archive blob: its blob path (e.g. `zip/dis-2024-dept.zip`) and the
entries of the ZIP file stored there. -/
structure Archive where
  path : String
  entries : List Entry
deriving DecidableEq, Repr

/-- Characters stripped from the front of an internal path by
`info.filename.lstrip("./\\")`: Python `lstrip` with a character set removes
the longest leading run of characters from that set. -/
def isStripChar (c : Char) : Bool :=
  c = '.' || c = '/' || c = '\\'

/-- `info.filename.lstrip("./\\").replace("\\", "/")` on the character list. -/
def normalizeChars (cs : List Char) : List Char :=
  (cs.dropWhile isStripChar).map (fun c => if c = '\\' then '/' else c)

/-- The normalized internal path of an entry (string wrapper). -/
def normalizeInternal (s : String) : String :=
  String.mk (normalizeChars s.data)

/-- The archive base name: `os.path.splitext(posixpath.basename(path))[0]`. -/
def zipBaseOf (ar : Archive) : String :=
  splitextRoot (basename ar.path)

/-- `target_root` of an archive: `unzip/<base>/`. -/
def targetRootOf (ar : Archive) : String :=
  unzipRoot ++ zipBaseOf ar ++ "/"

/-- Destination blob path of one entry: `target_root` followed by the
normalized internal path. -/
def entryDest (ar : Archive) (e : Entry) : String :=
  targetRootOf ar ++ normalizeInternal e.filename

/-- The `_SUCCESS` marker path of an archive. -/
def markerOf (ar : Archive) : String :=
  markerPath (zipBaseOf ar)

/-- State threaded through an Extractor run: the store plus the event log. -/
structure ExtState where
  store : Store
  events : List Event
deriving DecidableEq, Repr

/-- Body of the `_SUCCESS` marker blob (`key=value` lines). -/
def markerBody (zipPath targetRoot : String) (count : Nat) (ts : String) : String :=
  "zip=" ++ zipPath ++ "\n" ++
  "output_prefix=" ++ targetRoot ++ "\n" ++
  "files_extracted=" ++ toString count ++ "\n" ++
  "timestamp_utc=" ++ ts ++ "\n"

/-- Processing of one `infolist()` entry: directories are ignored; an entry
whose destination blob already exists is skipped; otherwise the entry is
uploaded (with `overwrite=False`, reachable only when absent) and the
extracted-file counter is incremented. -/
def processEntry (ar : Archive) (st : ExtState × Nat) (info : Entry) : ExtState × Nat :=
  if info.isDir then st
  else
    let dest := entryDest ar info
    if blob_exists st.1.store dest then st
    else (⟨storeUpload st.1.store dest info.data,
           st.1.events ++ [Event.upload dest]⟩, st.2 + 1)

/-- Processing of one archive in `main` of `02_ingest_data.py`: skip when the
`_SUCCESS` marker exists; otherwise download the archive, process every
entry, and finally upload the marker (with `overwrite=True`).  `ts` is the
wall-clock timestamp recorded in the marker body. -/
def processArchive (ts : String) (st : ExtState) (ar : Archive) : ExtState :=
  if blob_exists st.store (markerOf ar) then st
  else
    let st0 : ExtState := ⟨st.store, st.events ++ [Event.download ar.path]⟩
    let stepped := ar.entries.foldl (processEntry ar) (st0, 0)
    ⟨storeUpload stepped.1.store (markerOf ar)
       (markerBody ar.path (targetRootOf ar) stepped.2 ts),
     stepped.1.events ++ [Event.upload (markerOf ar)]⟩

/-- A full Extractor run over the listed archives, starting with an empty
event log. -/
def runExtractor (ts : String) (archives : List Archive) (store : Store) : ExtState :=
  archives.foldl (processArchive ts) ⟨store, []⟩

/-! ### Fetcher (`01_ingest_zip.py` and `01_ingest_data.py`) -/

/-- The characters after the first `://` of a URL, if any. -/
def afterSchemeSep : List Char → Option (List Char)
  | [] => none
  | ':' :: '/' :: '/' :: rest => some rest
  | _ :: rest => afterSchemeSep rest

/-- `urlparse(url).path` for the scheme-and-authority URLs the scripts use
(no query or fragment): everything from the first `/` after the authority. -/
def urlPathOf (url : String) : String :=
  match afterSchemeSep url.data with
  | some rest => String.mk (rest.dropWhile (fun c => c ≠ '/'))
  | none => url

/-- `os.path.basename(urlparse(url).path)`: the destination file name. -/
def urlFileName (url : String) : String :=
  basename (urlPathOf url)

/-- Destination blob path of one URL: `zip/<last-path-segment>`. -/
def urlDest (url : String) : String :=
  zipRoot ++ urlFileName url

/-- One URL of the `01_ingest_zip.py` loop: skip (no fetch, no change) when
the destination blob already exists, else fetch the body and upload it with
`overwrite=False` (reachable only when absent).  `body` models the HTTP
response body of a successful `requests.get`. -/
def processUrlZip (body : String → String) (st : Store × List Event) (url : String) :
    Store × List Event :=
  if blob_exists st.1 (urlDest url) then st
  else (storeUpload st.1 (urlDest url) (body url),
        st.2 ++ [Event.fetch url, Event.upload (urlDest url)])

/-- The whole `01_ingest_zip.py` loop over its URL list. -/
def fetchRunZip (body : String → String) (urls : List String) (store : Store) :
    Store × List Event :=
  urls.foldl (processUrlZip body) (store, [])

/-- One URL of the `01_ingest_data.py` loop: always fetch and upload with
`overwrite=True`, with no existence check. -/
def processUrlData (body : String → String) (st : Store × List Event) (url : String) :
    Store × List Event :=
  (storeUpload st.1 (urlDest url) (body url),
   st.2 ++ [Event.fetch url, Event.upload (urlDest url)])

/-- The whole `01_ingest_data.py` loop over its URL list. -/
def fetchRunData (body : String → String) (urls : List String) (store : Store) :
    Store × List Event :=
  urls.foldl (processUrlData body) (store, [])

/-! ### Tabularizer: delimiter detection (`detect_sep` of `03`/`04`) -/

/-- `FORCE_SEP` of `04_build_parquet.py` (its shipped value is `None`;
`03_build_parquet.py` has no forcing at all). -/
def FORCE_SEP : Option Char := none

/-- The candidate delimiters, in the order the scripts list them. -/
def sepCandidates : List Char := [';', ',', '\t', '|']

/-- `sample.count(c)` for a one-character needle: number of occurrences of
the character in the sample. -/
def countChar (sample : String) (c : Char) : Nat :=
  sample.data.count c

/-- `max(counts, key=counts.get)` over keys in insertion order: scan left to
right, replacing the current best only on a strictly greater count, so the
earliest maximum wins. -/
def argmaxFirst (key : Char → Nat) : Char → List Char → Char
  | b, [] => b
  | b, c :: cs => argmaxFirst key (if key c > key b then c else b) cs

/-- `detect_sep` of `03_build_parquet.py` / `04_build_parquet.py`: the most
frequent candidate delimiter in the sample (ties to the earliest candidate),
or `;` when no candidate occurs at all. -/
def detect_sep (sample : String) : Char :=
  match FORCE_SEP with
  | some c => c
  | none =>
    match sepCandidates with
    | [] => ';'
    | c0 :: cs =>
      let best := argmaxFirst (countChar sample) c0 cs
      if 0 < countChar sample best then best else ';'

/-! ### Tabularizer: decoding fallback chain (`read_txt_to_df` /
`read_txt_blob_to_df`) -/

/-- Continuation byte test for strict UTF-8. -/
def isCont (b : Nat) : Bool :=
  0x80 ≤ b && b ≤ 0xBF

/-- Strict UTF-8 decoding of a byte sequence into its code points, exactly as
Python's `bytes.decode("utf-8")` accepts it: no overlong forms, no
surrogates, nothing above `U+10FFFF`; `none` on any violation. -/
def utf8Decode : List Nat → Option (List Nat)
  | [] => some []
  | b :: bs =>
    if b ≤ 0x7F then
      (utf8Decode bs).map (fun t => b :: t)
    else if 0xC2 ≤ b && b ≤ 0xDF then
      match bs with
      | b1 :: bs1 =>
        if isCont b1 then
          (utf8Decode bs1).map (fun t => ((b - 0xC0) * 0x40 + (b1 - 0x80)) :: t)
        else none
      | _ => none
    else if 0xE0 ≤ b && b ≤ 0xEF then
      match bs with
      | b1 :: b2 :: bs2 =>
        if isCont b1 && isCont b2 && (b ≠ 0xE0 || 0xA0 ≤ b1) && (b ≠ 0xED || b1 ≤ 0x9F) then
          (utf8Decode bs2).map
            (fun t => ((b - 0xE0) * 0x1000 + (b1 - 0x80) * 0x40 + (b2 - 0x80)) :: t)
        else none
      | _ => none
    else if 0xF0 ≤ b && b ≤ 0xF4 then
      match bs with
      | b1 :: b2 :: b3 :: bs3 =>
        if isCont b1 && isCont b2 && isCont b3 &&
            (b ≠ 0xF0 || 0x90 ≤ b1) && (b ≠ 0xF4 || b1 ≤ 0x8F) then
          (utf8Decode bs3).map
            (fun t => ((b - 0xF0) * 0x40000 + (b1 - 0x80) * 0x1000 +
                       (b2 - 0x80) * 0x40 + (b3 - 0x80)) :: t)
        else none
      | _ => none
    else none

/-- Python's `"utf-8-sig"` codec: strip a UTF-8 byte-order mark when present,
then decode strict UTF-8. -/
def utf8SigDecode (bs : List Nat) : Option (List Nat) :=
  match bs with
  | 0xEF :: 0xBB :: 0xBF :: rest => utf8Decode rest
  | _ => utf8Decode bs

/-- Python's strict `"latin-1"` codec: every byte below 256 maps to the code
point of the same value; it never fails on genuine bytes. -/
def latin1Decode (bs : List Nat) : Option (List Nat) :=
  if bs.all (fun b => b < 256) then some bs else none

/-- The decoding fallback chain of `read_txt_to_df` / `read_txt_blob_to_df`:
try `utf-8`, then `utf-8-sig`, then `latin-1`, each strict; `none` models the
`for`-`else` "encodage inconnu, on saute" skip branch, reached only when all
three codecs raise. -/
def decodeBlob (bs : List Nat) : Option (List Nat) :=
  match utf8Decode bs with
  | some t => some t
  | none =>
    match utf8SigDecode bs with
    | some t => some t
    | none =>
      match latin1Decode bs with
      | some t => some t
      | none => none

/-! ### Tabularizer: year assembly and chunked parquet output
(`04_build_parquet.py`) -/

/-- `CHUNK_ROWS` of `04_build_parquet.py`. -/
def CHUNK_ROWS : Nat := 100000

/-- `OUT_ROOT` of `04_build_parquet.py`. -/
def outRoot : String := "parquet_result"

/-- One row of a parsed table, every field a string (`dtype=str`). -/
abbrev Row := List String

/-- One source file of a year directory, as the Tabularizer sees it after
listing and sorting: its blob path and the outcome of
`read_txt_to_df` (`none` when decoding or `pd.read_csv` failed). -/
structure ParsedFile where
  path : String
  rows : Option (List Row)
deriving DecidableEq, Repr

/-- `df["_source_blob"] = p; df["_year"] = year`: every row gains the source
blob path and the year as two trailing provenance fields. -/
def tagRows (p year : String) (rows : List Row) : List Row :=
  rows.map (fun r => r ++ [p, year])

/-- The `dfs` list of `process_year`: the tagged tables of the files that
parsed successfully (`df is not None`) and are non-empty (`len(df) > 0`),
in file order. -/
def dfsOf (year : String) (files : List ParsedFile) : List (List Row) :=
  files.filterMap (fun f =>
    match f.rows with
    | some rs => if 0 < rs.length then some (tagRows f.path year rs) else none
    | none => none)

/-- `full = pd.concat(dfs, ignore_index=True)`: the year's logical table. -/
def assembleYear (year : String) (files : List ParsedFile) : List Row :=
  (dfsOf year files).flatten

/-- The chunks written by `write_parquet_parts`, as (part index, rows) pairs
in write order: `num_parts = max(1, ceil(total / c))` candidate slices
`df.iloc[i*c:(i+1)*c]`, with empty slices skipped (`if part.empty:
continue`). -/
def write_parquet_parts (c : Nat) (df : List Row) : List (Nat × List Row) :=
  let total := df.length
  let numParts := max 1 ((total + c - 1) / c)
  (List.range numParts).filterMap (fun i =>
    let part := (df.drop (i * c)).take c
    if part.isEmpty then none else some (i, part))

/-- `f"{i:05d}"`: the part index, zero-padded to five digits. -/
def padIndex (i : Nat) : String :=
  let s := toString i
  String.mk (List.replicate (5 - s.length) '0') ++ s

/-- Blob name of one part file: `<out_dir>part-<i:05d>.parquet`. -/
def partBlobName (outDir : String) (i : Nat) : String :=
  outDir ++ "part-" ++ padIndex i ++ ".parquet"

/-- Stand-in for the parquet serialization of a table; the claims only need
blob existence, not the byte format. -/
def encodePart (rows : List Row) : String :=
  toString rows

/-- Output directory of one year in `process_year`. -/
def yearOutDir (year : String) : String :=
  outRoot ++ "/dis-" ++ year ++ "-dept/"

/-- `_SUCCESS` marker path of one year. -/
def yearMarker (year : String) : String :=
  yearOutDir year ++ "_SUCCESS"

/-- `process_year` of `04_build_parquet.py` at the store level.  The blob
listing and `DIS_RESULT` name filtering are environment interaction; `files`
stands for the sorted matching files together with their
`read_txt_to_df` outcomes.  Marker present (with `SKIP_IF_SUCCESS = True`),
no matching file, or no readable data: return with no store change and no
events; otherwise upload every part file of the chunked year table and then
the `_SUCCESS` marker (both with `overwrite=True`). -/
def processYearRun (store : Store) (events : List Event) (year : String)
    (files : List ParsedFile) : Store × List Event :=
  if blob_exists store (yearMarker year) then (store, events)
  else if files.isEmpty then (store, events)
  else
    let dfs := dfsOf year files
    if dfs.isEmpty then (store, events)
    else
      let full := dfs.flatten
      let parts := write_parquet_parts CHUNK_ROWS full
      let store1 := parts.foldl
        (fun s pr => storeUpload s (partBlobName (yearOutDir year) pr.1) (encodePart pr.2))
        store
      let ev1 := events ++ parts.map (fun pr => Event.upload (partBlobName (yearOutDir year) pr.1))
      (storeUpload store1 (yearMarker year)
         ("year=" ++ year ++ "\n" ++ "rows=" ++ toString full.length ++ "\n"),
       ev1 ++ [Event.upload (yearMarker year)])

/-! ### Store lemmas -/

theorem storeGet_filter_ne (s : Store) (p q : String) (h : q ≠ p) :
    storeGet (s.filter (fun kv => kv.1 ≠ p)) q = storeGet s q := by
  induction s with
  | nil => rfl
  | cons kv rest ih =>
    simp only [List.filter_cons]
    by_cases hk : kv.1 = p
    · rw [if_neg (by simp [hk]), ih]
      simp only [storeGet]
      rw [if_neg (by rw [hk]; exact fun e => h e.symm)]
    · rw [if_pos (by simp [hk])]
      simp only [storeGet]
      by_cases hq : kv.1 = q
      · simp [hq]
      · rw [if_neg hq, if_neg hq]
        exact ih

theorem storeGet_upload (s : Store) (p d q : String) :
    storeGet (storeUpload s p d) q = if p = q then some d else storeGet s q := by
  unfold storeUpload
  simp only [storeGet]
  by_cases h : p = q
  · simp [h]
  · rw [if_neg h, if_neg h, storeGet_filter_ne]
    exact fun hq => h hq.symm

theorem blob_exists_upload (s : Store) (p d q : String) :
    blob_exists (storeUpload s p d) q = (decide (p = q) || blob_exists s q) := by
  unfold blob_exists
  rw [storeGet_upload]
  by_cases h : p = q <;> simp [h]

theorem blob_exists_upload_self (s : Store) (p d : String) :
    blob_exists (storeUpload s p d) p = true := by
  rw [blob_exists_upload]; simp

theorem blob_exists_upload_mono (s : Store) (p d q : String)
    (h : blob_exists s q = true) : blob_exists (storeUpload s p d) q = true := by
  rw [blob_exists_upload, h, Bool.or_true]

/-! ### Extractor lemmas -/

theorem processEntry_store_mono (ar : Archive) (st : ExtState × Nat) (e : Entry)
    (q : String) (h : blob_exists st.1.store q = true) :
    blob_exists (processEntry ar st e).1.store q = true := by
  by_cases hd : e.isDir
  · simpa [processEntry, hd] using h
  · by_cases he : blob_exists st.1.store (entryDest ar e) = true
    · simpa [processEntry, hd, he] using h
    · simp only [processEntry, hd, Bool.false_eq_true, if_false,
        Bool.not_eq_true] at he ⊢
      rw [if_neg (by simp [he])]
      exact blob_exists_upload_mono _ _ _ _ h

theorem foldEntries_store_mono (ar : Archive) (es : List Entry) (st : ExtState × Nat)
    (q : String) (h : blob_exists st.1.store q = true) :
    blob_exists (es.foldl (processEntry ar) st).1.store q = true := by
  induction es generalizing st with
  | nil => exact h
  | cons e rest ih =>
    exact ih _ (processEntry_store_mono ar st e q h)

theorem processArchive_store_mono (ts : String) (st : ExtState) (ar : Archive)
    (q : String) (h : blob_exists st.store q = true) :
    blob_exists (processArchive ts st ar).store q = true := by
  unfold processArchive
  split
  · exact h
  · exact blob_exists_upload_mono _ _ _ _
      (foldEntries_store_mono ar ar.entries ⟨⟨st.store, _⟩, 0⟩ q h)

theorem processArchive_marker (ts : String) (st : ExtState) (ar : Archive) :
    blob_exists (processArchive ts st ar).store (markerOf ar) = true := by
  unfold processArchive
  split
  · assumption
  · exact blob_exists_upload_self _ _ _

theorem processArchive_skip (ts : String) (st : ExtState) (ar : Archive)
    (h : blob_exists st.store (markerOf ar) = true) :
    processArchive ts st ar = st := by
  unfold processArchive
  rw [if_pos h]

theorem foldArchives_store_mono (ts : String) (archives : List Archive) (st : ExtState)
    (q : String) (h : blob_exists st.store q = true) :
    blob_exists (archives.foldl (processArchive ts) st).store q = true := by
  induction archives generalizing st with
  | nil => exact h
  | cons a rest ih => exact ih _ (processArchive_store_mono ts st a q h)

theorem foldArchives_markers (ts : String) (archives : List Archive) (st : ExtState) :
    ∀ ar ∈ archives,
      blob_exists (archives.foldl (processArchive ts) st).store (markerOf ar) = true := by
  induction archives generalizing st with
  | nil => intro ar h; cases h
  | cons a rest ih =>
    intro ar h
    rcases List.mem_cons.mp h with h | h
    · subst h
      simp only [List.foldl_cons]
      exact foldArchives_store_mono ts rest _ _ (processArchive_marker ts st ar)
    · exact ih (processArchive ts st a) ar h

theorem processEntry_dest (ar : Archive) (st : ExtState × Nat) (e : Entry)
    (hd : e.isDir = false) :
    blob_exists (processEntry ar st e).1.store (entryDest ar e) = true := by
  by_cases he : blob_exists st.1.store (entryDest ar e) = true
  · simp [processEntry, hd, he]
  · simp only [Bool.not_eq_true] at he
    simp only [processEntry, hd, Bool.false_eq_true, if_false]
    rw [if_neg (by simp [he])]
    exact blob_exists_upload_self _ _ _

theorem foldEntries_dests (ar : Archive) (es : List Entry) (st : ExtState × Nat) :
    ∀ e ∈ es, e.isDir = false →
      blob_exists (es.foldl (processEntry ar) st).1.store (entryDest ar e) = true := by
  induction es generalizing st with
  | nil => intro e he; cases he
  | cons e rest ih =>
    intro e' he' hd
    rcases List.mem_cons.mp he' with h | h
    · subst h
      simp only [List.foldl_cons]
      exact foldEntries_store_mono ar rest _ _ (processEntry_dest ar st e' hd)
    · exact ih (processEntry ar st e) e' h hd

theorem processArchive_outputs (ts : String) (st : ExtState) (ar : Archive)
    (h : blob_exists st.store (markerOf ar) = false) :
    ∀ e ∈ ar.entries, e.isDir = false →
      blob_exists (processArchive ts st ar).store (entryDest ar e) = true := by
  intro e he hd
  unfold processArchive
  rw [if_neg (by simp [h])]
  exact blob_exists_upload_mono _ _ _ _ (foldEntries_dests ar ar.entries _ e he hd)

theorem foldEntries_skip (ar : Archive) (es : List Entry) (st : ExtState × Nat)
    (h : ∀ e ∈ es, e.isDir = false → blob_exists st.1.store (entryDest ar e) = true) :
    es.foldl (processEntry ar) st = st := by
  induction es with
  | nil => rfl
  | cons e rest ih =>
    have hstep : processEntry ar st e = st := by
      by_cases hd : e.isDir
      · simp [processEntry, hd]
      · simp [processEntry, hd,
          h e (List.mem_cons_self e rest) (by simpa using hd)]
    simp only [List.foldl_cons, hstep]
    exact ih (fun e' h' hd' => h e' (List.mem_cons_of_mem e h') hd')

theorem foldEntries_fresh_events (ar : Archive) (es : List Entry) (st : ExtState × Nat)
    (hfresh : ∀ e ∈ es, e.isDir = false → blob_exists st.1.store (entryDest ar e) = false)
    (hnodup : (es.filter (fun e => e.isDir = false)).Pairwise
      (fun a b => entryDest ar a ≠ entryDest ar b)) :
    (es.foldl (processEntry ar) st).1.events
      = st.1.events ++ (es.filter (fun e => e.isDir = false)).map
          (fun e => Event.upload (entryDest ar e)) := by
  induction es generalizing st with
  | nil => simp
  | cons e rest ih =>
    by_cases hd : e.isDir
    · have hstep : processEntry ar st e = st := by simp [processEntry, hd]
      have hfilter : (e :: rest).filter (fun x => x.isDir = false)
          = rest.filter (fun x => x.isDir = false) := by
        simp [List.filter_cons, hd]
      simp only [List.foldl_cons, hstep, hfilter]
      rw [hfilter] at hnodup
      exact ih st (fun e' h' hd' => hfresh e' (List.mem_cons_of_mem e h') hd') hnodup
    · have hd' : e.isDir = false := by simpa using hd
      have hfr : blob_exists st.1.store (entryDest ar e) = false :=
        hfresh e (List.mem_cons_self e rest) hd'
      have hfilter : (e :: rest).filter (fun x => x.isDir = false)
          = e :: rest.filter (fun x => x.isDir = false) := by
        simp [List.filter_cons, hd']
      rw [hfilter] at hnodup
      rw [List.pairwise_cons] at hnodup
      obtain ⟨hne, hpw⟩ := hnodup
      have hstep : processEntry ar st e
          = (⟨storeUpload st.1.store (entryDest ar e) e.data,
              st.1.events ++ [Event.upload (entryDest ar e)]⟩, st.2 + 1) := by
        simp [processEntry, hd', hfr]
      simp only [List.foldl_cons, hstep, hfilter, List.map_cons]
      rw [ih _ ?_ hpw]
      · simp
      · intro e' h' hd''
        have hne' : entryDest ar e ≠ entryDest ar e' := by
          apply hne
          rw [List.mem_filter]
          exact ⟨h', by simp [hd'']⟩
        have := hfresh e' (List.mem_cons_of_mem e h') hd''
        rw [blob_exists_upload]
        simp [hne', this]

theorem foldArchives_skip (ts : String) (archives : List Archive) (st : ExtState)
    (h : ∀ ar ∈ archives, blob_exists st.store (markerOf ar) = true) :
    archives.foldl (processArchive ts) st = st := by
  induction archives with
  | nil => rfl
  | cons a rest ih =>
    simp only [List.foldl_cons]
    rw [processArchive_skip ts st a (h a (List.mem_cons_self a rest))]
    exact ih (fun ar h' => h ar (List.mem_cons_of_mem a h'))

theorem processYearRun_skip (store : Store) (ev : List Event) (year : String)
    (files : List ParsedFile) (h : blob_exists store (yearMarker year) = true) :
    processYearRun store ev year files = (store, ev) := by
  unfold processYearRun
  rw [if_pos h]

theorem foldUpload_mono (outDir : String) (parts : List (Nat × List Row))
    (store : Store) (q : String) (h : blob_exists store q = true) :
    blob_exists
      (parts.foldl
        (fun s pr => storeUpload s (partBlobName outDir pr.1) (encodePart pr.2))
        store) q = true := by
  induction parts generalizing store with
  | nil => exact h
  | cons pr rest ih =>
    exact ih _ (blob_exists_upload_mono _ _ _ _ h)

theorem foldUpload_exists (outDir : String) (parts : List (Nat × List Row))
    (store : Store) :
    ∀ pr ∈ parts,
      blob_exists
        (parts.foldl
          (fun s pr => storeUpload s (partBlobName outDir pr.1) (encodePart pr.2))
          store) (partBlobName outDir pr.1) = true := by
  induction parts generalizing store with
  | nil => intro pr h; cases h
  | cons pr0 rest ih =>
    intro pr h
    rcases List.mem_cons.mp h with h | h
    · subst h
      simp only [List.foldl_cons]
      exact foldUpload_mono outDir rest _ _ (blob_exists_upload_self _ _ _)
    · exact ih _ pr h

theorem processYearRun_outputs (store : Store) (ev : List Event) (year : String)
    (files : List ParsedFile)
    (hm : blob_exists store (yearMarker year) = false)
    (hf : files ≠ [])
    (hd : dfsOf year files ≠ []) :
    blob_exists (processYearRun store ev year files).1 (yearMarker year) = true
    ∧ ∀ pr ∈ write_parquet_parts CHUNK_ROWS (dfsOf year files).flatten,
        blob_exists (processYearRun store ev year files).1
          (partBlobName (yearOutDir year) pr.1) = true := by
  have hf' : files.isEmpty = false := by
    cases hE : files.isEmpty
    · rfl
    · rw [List.isEmpty_iff] at hE
      exact absurd hE hf
  have hd' : (dfsOf year files).isEmpty = false := by
    cases hE : (dfsOf year files).isEmpty
    · rfl
    · rw [List.isEmpty_iff] at hE
      exact absurd hE hd
  unfold processYearRun
  rw [if_neg (by simp [hm]), if_neg (by simp [hf']), if_neg (by simp [hd'])]
  constructor
  · exact blob_exists_upload_self _ _ _
  · intro pr hpr
    exact blob_exists_upload_mono _ _ _ _
      (foldUpload_exists (yearOutDir year) _ store pr hpr)

/-! ### Claim theorems: C1, C2, C3 -/

/-- **C1**  For every unit of work (archive for extraction, year directory
for tabularization): (i) an archive whose `_SUCCESS` marker exists is left
entirely alone by the Extractor — no download, no upload, no store change;
(ii) when the marker is absent, the Extractor's processing of the archive
ends with the marker present and with every expected output object (the
destination blob of every non-directory entry) present, so a marker written
by the stage certifies that all expected outputs were written; (iii) a year
directory whose `_SUCCESS` marker exists is left entirely alone by the
Tabularizer; (iv) when the year marker is absent and the year actually
produces output (there are matching files and at least one parsed
non-empty), the Tabularizer run ends with the year marker present and with
every expected part blob present — on the degenerate no-output paths it
writes nothing, so the year marker too is only ever written together with
all the expected part files. -/
theorem marker_invariant_C1 (ts : String) (st : ExtState) (ar : Archive)
    (store : Store) (ev : List Event) (year : String) (files : List ParsedFile) :
    (blob_exists st.store (markerOf ar) = true → processArchive ts st ar = st)
    ∧ (blob_exists st.store (markerOf ar) = false →
        blob_exists (processArchive ts st ar).store (markerOf ar) = true
        ∧ ∀ e ∈ ar.entries, e.isDir = false →
            blob_exists (processArchive ts st ar).store (entryDest ar e) = true)
    ∧ (blob_exists store (yearMarker year) = true →
        processYearRun store ev year files = (store, ev))
    ∧ (blob_exists store (yearMarker year) = false →
        files ≠ [] → dfsOf year files ≠ [] →
        blob_exists (processYearRun store ev year files).1 (yearMarker year) = true
        ∧ ∀ pr ∈ write_parquet_parts CHUNK_ROWS (dfsOf year files).flatten,
            blob_exists (processYearRun store ev year files).1
              (partBlobName (yearOutDir year) pr.1) = true) := by
  refine ⟨processArchive_skip ts st ar, ?_,
    processYearRun_skip store ev year files,
    processYearRun_outputs store ev year files⟩
  intro h
  exact ⟨processArchive_marker ts st ar, processArchive_outputs ts st ar h⟩

/-- Witness for `marker_invariant_C1` at concrete inputs: a store already
holding the archive marker is untouched, a fresh run establishes the marker,
a marked year is skipped by the Tabularizer, and an unmarked year with one
readable file ends with its year marker written. -/
theorem marker_invariant_C1_witness :
    processArchive "t0" ⟨[("unzip/a/_SUCCESS", "m")], []⟩
        ⟨"zip/a.zip", [⟨"f.txt", false, "d"⟩]⟩
      = ⟨[("unzip/a/_SUCCESS", "m")], []⟩
    ∧ blob_exists (processArchive "t0" ⟨[], []⟩
        ⟨"zip/a.zip", [⟨"f.txt", false, "d"⟩]⟩).store
        (markerOf ⟨"zip/a.zip", [⟨"f.txt", false, "d"⟩]⟩) = true
    ∧ processYearRun [("parquet_result/dis-2024-dept/_SUCCESS", "m")] [] "2024" []
      = ([("parquet_result/dis-2024-dept/_SUCCESS", "m")], [])
    ∧ blob_exists (processYearRun [] [] "2024"
        [⟨"unzip/dis-2024-dept/DIS_RESULT_2024.txt", some [["v"]]⟩]).1
        (yearMarker "2024") = true :=
  ⟨(marker_invariant_C1 "t0" ⟨[("unzip/a/_SUCCESS", "m")], []⟩
      ⟨"zip/a.zip", [⟨"f.txt", false, "d"⟩]⟩ [] [] "2024" []).1 (by decide),
   ((marker_invariant_C1 "t0" ⟨[], []⟩
      ⟨"zip/a.zip", [⟨"f.txt", false, "d"⟩]⟩ [] [] "2024" []).2.1 (by decide)).1,
   (marker_invariant_C1 "t0" ⟨[], []⟩ ⟨"zip/a.zip", []⟩
      [("parquet_result/dis-2024-dept/_SUCCESS", "m")] [] "2024" []).2.2.1 (by decide),
   ((marker_invariant_C1 "t0" ⟨[], []⟩ ⟨"zip/a.zip", []⟩ [] [] "2024"
      [⟨"unzip/dis-2024-dept/DIS_RESULT_2024.txt", some [["v"]]⟩]).2.2.2
      (by decide) (by decide) (by decide)).1⟩

/-- **C2**  Idempotence of the Extractor: after a first complete run over an
archive set, every archive's `_SUCCESS` marker exists; a second run over the
same archive set returns the stored objects exactly as the first run left
them and records no event at all — no download, no entry upload, and no
marker rewrite. -/
theorem extractor_idempotent_C2 (ts1 ts2 : String) (archives : List Archive)
    (s0 : Store) :
    (∀ ar ∈ archives,
      blob_exists (runExtractor ts1 archives s0).store (markerOf ar) = true)
    ∧ runExtractor ts2 archives (runExtractor ts1 archives s0).store
        = ⟨(runExtractor ts1 archives s0).store, []⟩ := by
  constructor
  · exact foldArchives_markers ts1 archives ⟨s0, []⟩
  · exact foldArchives_skip ts2 archives
      ⟨(runExtractor ts1 archives s0).store, []⟩
      (foldArchives_markers ts1 archives ⟨s0, []⟩)

/-- **C3**  Resumability of the Extractor: if a previous run uploaded the
entries of `es1` (their destination blobs exist) but was interrupted before
the marker was written, the next run re-processes the archive (one download
event, since the marker is absent), produces no upload for any entry of
`es1`, uploads exactly the non-directory entries of `es2` in order, and
uploads the marker only after all entries are processed (it is the final
event). -/
theorem extractor_resumable_C3 (ts : String) (s : Store) (ar : Archive)
    (es1 es2 : List Entry)
    (hsplit : ar.entries = es1 ++ es2)
    (hmark : blob_exists s (markerOf ar) = false)
    (h1 : ∀ e ∈ es1, e.isDir = false → blob_exists s (entryDest ar e) = true)
    (h2 : ∀ e ∈ es2, e.isDir = false → blob_exists s (entryDest ar e) = false)
    (hnodup : (es2.filter (fun e => e.isDir = false)).Pairwise
      (fun a b => entryDest ar a ≠ entryDest ar b)) :
    (processArchive ts ⟨s, []⟩ ar).events
      = Event.download ar.path
        :: (es2.filter (fun e => e.isDir = false)).map
            (fun e => Event.upload (entryDest ar e))
        ++ [Event.upload (markerOf ar)] := by
  unfold processArchive
  rw [if_neg (by simp [hmark])]
  simp only [hsplit, List.foldl_append]
  rw [foldEntries_skip ar es1 ⟨⟨s, [] ++ [Event.download ar.path]⟩, 0⟩
    (fun e he hd => h1 e he hd)]
  rw [foldEntries_fresh_events ar es2 ⟨⟨s, [] ++ [Event.download ar.path]⟩, 0⟩
    (fun e he hd => h2 e he hd) hnodup]
  simp

/-- Witness for `extractor_resumable_C3`: one entry already uploaded, one
not; the re-run downloads the archive, uploads only the missing entry, then
the marker. -/
theorem extractor_resumable_C3_witness :
    (processArchive "t0" ⟨[("unzip/a/f1.txt", "d1")], []⟩
        ⟨"zip/a.zip", [⟨"f1.txt", false, "d1"⟩, ⟨"f2.txt", false, "d2"⟩]⟩).events
      = [Event.download "zip/a.zip", Event.upload "unzip/a/f2.txt",
         Event.upload "unzip/a/_SUCCESS"] :=
  extractor_resumable_C3 "t0" [("unzip/a/f1.txt", "d1")]
    ⟨"zip/a.zip", [⟨"f1.txt", false, "d1"⟩, ⟨"f2.txt", false, "d2"⟩]⟩
    [⟨"f1.txt", false, "d1"⟩] [⟨"f2.txt", false, "d2"⟩]
    (by decide) (by decide) (by decide) (by decide) (by decide)

/-! ### Chunking lemmas (`write_parquet_parts`) -/

theorem filterMap_option_map {α β γ : Type} (g : β → γ) (f : α → Option β) (l : List α) :
    l.filterMap (fun a => (f a).map g) = (l.filterMap f).map g := by
  induction l with
  | nil => rfl
  | cons a t ih => cases h : f a <;> simp [List.filterMap_cons, h, ih]

theorem write_parquet_parts_def (c : Nat) (df : List Row) :
    write_parquet_parts c df
      = (List.range (max 1 ((df.length + c - 1) / c))).filterMap
          (fun i => if ((df.drop (i * c)).take c).isEmpty = true then none
                    else some (i, (df.drop (i * c)).take c)) := rfl

theorem parts_nil (c : Nat) (hc : 0 < c) : write_parquet_parts c ([] : List Row) = [] := by
  have h : (0 + c - 1) / c = 0 := Nat.div_eq_of_lt (by omega)
  rw [write_parquet_parts_def]
  simp [h]

theorem parts_small (c : Nat) (df : List Row) (hc : 0 < c) (hne : df ≠ [])
    (hlen : df.length ≤ c) : write_parquet_parts c df = [(0, df)] := by
  have hpos : 0 < df.length := List.length_pos.mpr hne
  have h1 : (df.length + c - 1) / c = 1 :=
    Nat.div_eq_of_lt_le (by omega) (by omega)
  have h0 : ((df.drop (0 * c)).take c) = df := by
    rw [Nat.zero_mul, List.drop_zero, List.take_of_length_le hlen]
  have hf0 : (if ((df.drop (0 * c)).take c).isEmpty = true then (none : Option (Nat × List Row))
      else some (0, (df.drop (0 * c)).take c)) = some (0, df) := by
    rw [h0, if_neg (by simp [List.isEmpty_iff, hne])]
  rw [write_parquet_parts_def, h1, Nat.max_self, (show List.range 1 = [0] from rfl)]
  simp only [List.filterMap_cons, hf0, List.filterMap_nil]

theorem parts_cons (c : Nat) (df : List Row) (hc : 0 < c) (h : c < df.length) :
    write_parquet_parts c df
      = (0, df.take c) ::
          (write_parquet_parts c (df.drop c)).map (fun p => (p.1 + 1, p.2)) := by
  have e1 : df.length + c - 1 = ((df.drop c).length + c - 1) + c := by
    rw [List.length_drop]; omega
  have e2 : (df.length + c - 1) / c = ((df.drop c).length + c - 1) / c + 1 := by
    rw [e1, Nat.add_div_right _ hc]
  have hk : 1 ≤ ((df.drop c).length + c - 1) / c := by
    rw [Nat.one_le_div_iff hc, List.length_drop]; omega
  have htake : (df.take c).length = c := by
    rw [List.length_take]; omega
  have h0 : ((df.drop (0 * c)).take c) = df.take c := by
    rw [Nat.zero_mul, List.drop_zero]
  have h0e : ((df.drop (0 * c)).take c).isEmpty = false := by
    rw [h0]
    cases hE : (df.take c).isEmpty
    · rfl
    · rw [List.isEmpty_iff] at hE
      rw [hE, List.length_nil] at htake
      omega
  rw [write_parquet_parts_def, write_parquet_parts_def]
  rw [e2, Nat.max_eq_right (by omega : 1 ≤ ((df.drop c).length + c - 1) / c + 1),
    Nat.max_eq_right hk]
  rw [List.range_succ_eq_map, List.filterMap_cons, h0e]
  simp only [Bool.false_eq_true, if_false, h0]
  congr 1
  rw [List.filterMap_map]
  have hfun : ∀ i : Nat,
      ((fun i => if ((df.drop (i * c)).take c).isEmpty = true then none
                 else some (i, (df.drop (i * c)).take c)) ∘ Nat.succ) i
        = (((fun i => if (((df.drop c).drop (i * c)).take c).isEmpty = true then none
                      else some (i, ((df.drop c).drop (i * c)).take c)) i).map
            (fun p => (p.1 + 1, p.2))) := by
    intro i
    have hdd : (df.drop c).drop (i * c) = df.drop (Nat.succ i * c) := by
      rw [List.drop_drop, Nat.succ_mul, Nat.add_comm]
    simp only [Function.comp_apply, hdd]
    cases hE : ((df.drop (Nat.succ i * c)).take c).isEmpty <;> simp [hE]
  rw [funext hfun, filterMap_option_map]

theorem parts_spec_aux (c : Nat) (hc : 0 < c) :
    ∀ n (df : List Row), df.length ≤ n →
      ((write_parquet_parts c df).map Prod.snd).flatten = df
      ∧ (write_parquet_parts c df).map Prod.fst
          = List.range (write_parquet_parts c df).length
      ∧ (df ≠ [] →
          (write_parquet_parts c df).length = (df.length + c - 1) / c
          ∧ (write_parquet_parts c df).map (fun p => p.2.length)
              = List.replicate ((df.length - 1) / c) c
                ++ [df.length - ((df.length - 1) / c) * c]) := by
  intro n
  induction n with
  | zero =>
    intro df h
    have hdf : df = [] := List.length_eq_zero.mp (by omega)
    subst hdf
    refine ⟨by simp [parts_nil c hc], by simp [parts_nil c hc], ?_⟩
    intro h'
    exact absurd rfl h'
  | succ n ih =>
    intro df h
    by_cases hnil : df = []
    · subst hnil
      refine ⟨by simp [parts_nil c hc], by simp [parts_nil c hc], ?_⟩
      intro h'
      exact absurd rfl h'
    · have hpos : 0 < df.length := List.length_pos.mpr hnil
      by_cases hsmall : df.length ≤ c
      · rw [parts_small c df hc hnil hsmall]
        refine ⟨by simp, by rfl, ?_⟩
        intro _
        have h1 : (df.length + c - 1) / c = 1 :=
          Nat.div_eq_of_lt_le (by omega) (by omega)
        have h2 : (df.length - 1) / c = 0 := Nat.div_eq_of_lt (by omega)
        refine ⟨by simp [h1], ?_⟩
        rw [h2]
        simp
      · have hlt : c < df.length := by omega
        have hdlen : (df.drop c).length = df.length - c := List.length_drop c df
        have hdn : (df.drop c).length ≤ n := by omega
        have hdne : df.drop c ≠ [] := by
          intro hE
          rw [hE, List.length_nil] at hdlen
          omega
        obtain ⟨ihflat, ihidx, ihlen⟩ := ih (df.drop c) hdn
        obtain ⟨ihlen1, ihlen2⟩ := ihlen hdne
        rw [parts_cons c df hc hlt]
        refine ⟨?_, ?_, ?_⟩
        · simp only [List.map_cons, List.map_map, List.flatten_cons]
          have hcomp : (Prod.snd ∘ fun p : Nat × List Row => (p.1 + 1, p.2))
              = Prod.snd := rfl
          rw [hcomp, ihflat]
          exact List.take_append_drop c df
        · simp only [List.map_cons, List.map_map, List.length_cons, List.length_map]
          rw [List.range_succ_eq_map, ← ihidx, List.map_map]
          try rfl
        · intro _
          have e2 : (df.length + c - 1) / c = ((df.drop c).length + c - 1) / c + 1 := by
            rw [hdlen]
            have e1 : df.length + c - 1 = (df.length - c + c - 1) + c := by omega
            rw [e1, Nat.add_div_right _ hc]
          have e3 : (df.length - 1) / c = ((df.drop c).length - 1) / c + 1 := by
            rw [hdlen]
            have e1 : df.length - 1 = (df.length - c - 1) + c := by omega
            rw [e1, Nat.add_div_right _ hc]
          constructor
          · simp only [List.length_cons, List.length_map]
            rw [ihlen1, e2]
          · simp only [List.map_cons, List.map_map]
            have htake : (df.take c).length = c := by
              rw [List.length_take]; omega
            have hcomp : ((fun p : Nat × List Row => p.2.length)
                ∘ fun p : Nat × List Row => (p.1 + 1, p.2))
                = (fun p : Nat × List Row => p.2.length) := rfl
            rw [hcomp, ihlen2, htake, e3, List.replicate_succ]
            simp only [List.cons_append, List.cons.injEq, true_and]
            congr 1
            congr 1
            rw [hdlen, Nat.add_mul, Nat.one_mul]
            omega

theorem parts_flatten (c : Nat) (hc : 0 < c) (df : List Row) :
    ((write_parquet_parts c df).map Prod.snd).flatten = df :=
  (parts_spec_aux c hc df.length df le_rfl).1

/-! ### Claim theorems: C4, C5 -/

/-- **C4**  Row provenance and completeness of the chunked year output:
reading the part files of a year in part-index order and concatenating their
rows yields exactly the concatenation, in (sorted) file order then row
order, of the tagged tables of the successfully parsed non-empty source
files; and every output row is some source row extended with exactly the two
provenance fields `_source_blob` (the source file's blob path) and `_year`
(the year). -/
theorem row_provenance_C4 (year : String) (files : List ParsedFile) (c : Nat)
    (hc : 0 < c)
    (hsorted : List.Pairwise (fun a b : ParsedFile => a.path ≤ b.path) files) :
    ((write_parquet_parts c (assembleYear year files)).map Prod.snd).flatten
      = (dfsOf year files).flatten
    ∧ ∀ r ∈ ((write_parquet_parts c (assembleYear year files)).map Prod.snd).flatten,
        ∃ f ∈ files, ∃ rs, f.rows = some rs ∧ 0 < rs.length
          ∧ ∃ r0 ∈ rs, r = r0 ++ [f.path, year] := by
  have hflat := parts_flatten c hc (assembleYear year files)
  refine ⟨by rw [hflat]; rfl, ?_⟩
  intro r hr
  rw [hflat] at hr
  have hr' : r ∈ (dfsOf year files).flatten := hr
  rw [List.mem_flatten] at hr'
  obtain ⟨l, hl, hrl⟩ := hr'
  simp only [dfsOf, List.mem_filterMap] at hl
  obtain ⟨f, hf, hgf⟩ := hl
  split at hgf
  · rename_i rs heq
    split at hgf
    · rename_i hlen
      have hl' : l = tagRows f.path year rs := (Option.some.inj hgf).symm
      subst hl'
      simp only [tagRows, List.mem_map] at hrl
      obtain ⟨r0, hr0, hreq⟩ := hrl
      exact ⟨f, hf, rs, heq, hlen, r0, hr0, hreq.symm⟩
    · cases hgf
  · cases hgf

/-- Witness for `row_provenance_C4`: a single one-row source file for 2024;
the flattened part files reproduce the tagged table. -/
theorem row_provenance_C4_witness :
    ((write_parquet_parts 2 (assembleYear "2024"
        [⟨"unzip/dis-2024-dept/DIS_RESULT_2024.txt", some [["v"]]⟩])).map
          Prod.snd).flatten
      = (dfsOf "2024"
          [⟨"unzip/dis-2024-dept/DIS_RESULT_2024.txt", some [["v"]]⟩]).flatten :=
  (row_provenance_C4 "2024"
    [⟨"unzip/dis-2024-dept/DIS_RESULT_2024.txt", some [["v"]]⟩] 2
    (by decide) (by simp)).1

/-- **C5** (amended)  Chunking of `write_parquet_parts`: the shipped concrete
case (`CHUNK_ROWS = 2`, five input rows) yields exactly the three parts
`[2, 2, 1]` whose concatenation restores the input; and in general, for a
chunk size `c > 0` and a **non-empty** input of `n` rows, the output is
`⌈n/c⌉` parts, every part of size `c` except a final part of size
`n - ⌊(n-1)/c⌋·c` (positive and at most `c`), indexed `0, 1, …` in order,
and their concatenation in part-index order equals the input.  (For an empty
input the code writes zero parts — the single candidate slice is empty and
skipped — which is why the original claim's "at least 1 part" is dropped.) -/
theorem write_parquet_parts_chunking_C5 (c : Nat) (df : List Row)
    (hc : 0 < c) (hne : df ≠ []) :
    write_parquet_parts 2 ([["r1"], ["r2"], ["r3"], ["r4"], ["r5"]] : List Row)
      = [(0, [["r1"], ["r2"]]), (1, [["r3"], ["r4"]]), (2, [["r5"]])]
    ∧ (write_parquet_parts c df).length = (df.length + c - 1) / c
    ∧ (write_parquet_parts c df).map (fun p => p.2.length)
        = List.replicate ((df.length - 1) / c) c
          ++ [df.length - (df.length - 1) / c * c]
    ∧ 0 < df.length - (df.length - 1) / c * c
    ∧ df.length - (df.length - 1) / c * c ≤ c
    ∧ ((write_parquet_parts c df).map Prod.snd).flatten = df
    ∧ (write_parquet_parts c df).map Prod.fst
        = List.range (write_parquet_parts c df).length := by
  obtain ⟨hflat, hidx, hlen⟩ := parts_spec_aux c hc df.length df le_rfl
  obtain ⟨hlen1, hlen2⟩ := hlen hne
  have hpos : 0 < df.length := List.length_pos.mpr hne
  have hq1 : (df.length - 1) / c * c ≤ df.length - 1 := Nat.div_mul_le_self _ _
  have hq2 : (df.length - 1) / c * c + (df.length - 1) % c = df.length - 1 := by
    rw [Nat.mul_comm]
    exact Nat.div_add_mod _ _
  have hq3 : (df.length - 1) % c < c := Nat.mod_lt _ hc
  exact ⟨by decide, hlen1, hlen2, by omega, by omega, hflat, hidx⟩

/-- Witness for `write_parquet_parts_chunking_C5` at the claim's concrete
numbers: five rows, chunk size two. -/
theorem write_parquet_parts_chunking_C5_witness :
    (write_parquet_parts 2 ([["r1"], ["r2"], ["r3"], ["r4"], ["r5"]] : List Row)).length
      = (([["r1"], ["r2"], ["r3"], ["r4"], ["r5"]] : List Row).length + 2 - 1) / 2 :=
  (write_parquet_parts_chunking_C5 2 [["r1"], ["r2"], ["r3"], ["r4"], ["r5"]]
    (by decide) (by decide)).2.1

/-- Counterexample to **C5** as stated: on an empty input table the code
writes **zero** part files (its single candidate slice `df.iloc[0:c]` is
empty and skipped by `if part.empty: continue`), not the "at least 1" part
the claim asserts for every `n` with `c > 0`. -/
theorem write_parquet_parts_empty_counterexample_C5 :
    write_parquet_parts 2 ([] : List Row) = []
    ∧ (write_parquet_parts 2 ([] : List Row)).length = 0 := by decide

/-! ### Decoding lemmas and claim C6 -/

set_option smartUnfolding false in
theorem utf8_bom (rest : List Nat) :
    utf8Decode (0xEF :: 0xBB :: 0xBF :: rest)
      = (utf8Decode rest).map (fun t => 0xFEFF :: t) := rfl

theorem utf8Sig_none (bs : List Nat) (h : utf8Decode bs = none) :
    utf8SigDecode bs = none := by
  unfold utf8SigDecode
  split
  · rw [utf8_bom] at h
    exact Option.map_eq_none'.mp h
  · exact h

theorem latin1_total (bs : List Nat) (hb : ∀ b ∈ bs, b < 256) :
    latin1Decode bs = some bs := by
  unfold latin1Decode
  rw [if_pos]
  rw [List.all_eq_true]
  intro b hbm
  simpa using hb b hbm

/-- **C6**  The decoding fallback chain of the Tabularizer is total on byte
sequences: a byte sequence valid as strict UTF-8 is decoded by the UTF-8
branch; an invalid one falls through `utf-8` and `utf-8-sig` to strict
Latin-1, which accepts every byte; consequently the chain never returns
`none`, i.e. the "encodage inconnu, on saute" skip branch is unreachable. -/
theorem encoding_fallback_C6 (bs : List Nat) (hb : ∀ b ∈ bs, b < 256) :
    (decodeBlob bs).isSome = true
    ∧ (∀ t, utf8Decode bs = some t → decodeBlob bs = some t)
    ∧ (utf8Decode bs = none → decodeBlob bs = some bs) := by
  have hl : latin1Decode bs = some bs := latin1_total bs hb
  have h2 : ∀ t, utf8Decode bs = some t → decodeBlob bs = some t := by
    intro t ht
    unfold decodeBlob
    rw [ht]
  have h3 : utf8Decode bs = none → decodeBlob bs = some bs := by
    intro hn
    unfold decodeBlob
    rw [hn, utf8Sig_none bs hn, hl]
  refine ⟨?_, h2, h3⟩
  cases hu : utf8Decode bs with
  | none => rw [h3 hu]; rfl
  | some t => rw [h2 t hu]; rfl

/-- Witness for `encoding_fallback_C6`: the bytes `61 E9` (`"aé"` in
Latin-1) are invalid UTF-8 and decode through the Latin-1 fallback; the
bytes `61 C3 A9` are valid UTF-8 and decode through the UTF-8 branch. -/
theorem encoding_fallback_C6_witness :
    decodeBlob [0x61, 0xE9] = some [0x61, 0xE9]
    ∧ decodeBlob [0x61, 0xC3, 0xA9] = some [0x61, 0xE9] :=
  ⟨(encoding_fallback_C6 [0x61, 0xE9] (by decide)).2.2 (by decide),
   (encoding_fallback_C6 [0x61, 0xC3, 0xA9] (by decide)).2.1 [0x61, 0xE9] (by decide)⟩

/-! ### Delimiter-detection lemmas and claims C7, C10 -/

/-- The `best = max(counts, key=counts.get)` computation of `detect_sep`:
first-maximum scan over the candidates in list order. -/
def bestOf (sample : String) : Char :=
  argmaxFirst (countChar sample) ';' [',', '\t', '|']

theorem detect_sep_eq (sample : String) :
    detect_sep sample
      = if 0 < countChar sample (bestOf sample) then bestOf sample else ';' := rfl

theorem bestOf_mem (sample : String) : bestOf sample ∈ sepCandidates := by
  simp only [bestOf, argmaxFirst, sepCandidates]
  split_ifs <;> simp

theorem bestOf_max (sample : String) :
    ∀ d ∈ sepCandidates, countChar sample d ≤ countChar sample (bestOf sample) := by
  intro d hd
  simp only [sepCandidates, List.mem_cons, List.not_mem_nil, or_false] at hd
  simp only [bestOf, argmaxFirst]
  rcases hd with rfl | rfl | rfl | rfl <;> (split_ifs <;> omega)

/-- **C7**  `detect_sep` returns the candidate among `;`, `,`, tab, `|` with
the highest occurrence count in the sample, and `;` when no candidate occurs
at all; in particular the three concrete samples of the claim evaluate as
stated. -/
theorem detect_sep_C7 (sample : String) :
    detect_sep "a;b;c\n1;2;3\n4;5;6" = ';'
    ∧ detect_sep "a,b,c\n1,2,3" = ','
    ∧ detect_sep "abc" = ';'
    ∧ ((∀ d ∈ sepCandidates, countChar sample d = 0) → detect_sep sample = ';')
    ∧ ((∃ d ∈ sepCandidates, 0 < countChar sample d) →
        detect_sep sample ∈ sepCandidates
        ∧ ∀ d ∈ sepCandidates,
            countChar sample d ≤ countChar sample (detect_sep sample)) := by
  refine ⟨by decide, by decide, by decide, ?_, ?_⟩
  · intro h
    rw [detect_sep_eq, if_neg]
    rw [h (bestOf sample) (bestOf_mem sample)]
    omega
  · rintro ⟨d, hd, hpos⟩
    have hposb : 0 < countChar sample (bestOf sample) :=
      lt_of_lt_of_le hpos (bestOf_max sample d hd)
    rw [detect_sep_eq, if_pos hposb]
    exact ⟨bestOf_mem sample, bestOf_max sample⟩

/-- Witness for `detect_sep_C7`: the all-semicolon sample has a positive
count, so the detector's result is a candidate with maximal count; and the
candidate-free sample falls back to `;`. -/
theorem detect_sep_C7_witness :
    detect_sep "a;b;c\n1;2;3\n4;5;6" ∈ sepCandidates
    ∧ detect_sep "x y z" = ';' :=
  ⟨((detect_sep_C7 "a;b;c\n1;2;3\n4;5;6").2.2.2.2 ⟨';', by decide, by decide⟩).1,
   (detect_sep_C7 "x y z").2.2.2.1 (by decide)⟩

/-- **C10**  Determinism and tie-breaking of `detect_sep`: the function is
deterministic (equal samples give equal results), the tie sample `"a;b,c"`
yields `;`, and in general whenever a candidate `c` attains the maximal
count, that count is positive, and every candidate strictly earlier in the
fixed order `;`, `,`, tab, `|` has a strictly smaller count, then
`detect_sep` returns exactly `c`. -/
theorem detect_sep_ties_C10 (sample : String) (c : Char) :
    detect_sep "a;b,c" = ';'
    ∧ (∀ s t : String, s = t → detect_sep s = detect_sep t)
    ∧ (c ∈ sepCandidates → 0 < countChar sample c →
        (∀ d ∈ sepCandidates, countChar sample d ≤ countChar sample c) →
        (∀ d ∈ sepCandidates.takeWhile (fun x => x ≠ c),
            countChar sample d < countChar sample c) →
        detect_sep sample = c) := by
  refine ⟨by decide, fun s t h => by rw [h], ?_⟩
  intro hc hpos hmax htake
  have m1 := hmax ';' (by decide)
  have m2 := hmax ',' (by decide)
  have m3 := hmax '\t' (by decide)
  have m4 := hmax '|' (by decide)
  simp only [sepCandidates, List.mem_cons, List.not_mem_nil, or_false] at hc
  rw [detect_sep_eq]
  simp only [bestOf, argmaxFirst]
  rcases hc with rfl | rfl | rfl | rfl
  · split_ifs <;> first | rfl | omega
  · have t1 : countChar sample ';' < countChar sample ',' :=
      htake ';' (by decide)
    split_ifs <;> first | rfl | omega
  · have t1 : countChar sample ';' < countChar sample '\t' :=
      htake ';' (by decide)
    have t2 : countChar sample ',' < countChar sample '\t' :=
      htake ',' (by decide)
    split_ifs <;> first | rfl | omega
  · have t1 : countChar sample ';' < countChar sample '|' :=
      htake ';' (by decide)
    have t2 : countChar sample ',' < countChar sample '|' :=
      htake ',' (by decide)
    have t3 : countChar sample '\t' < countChar sample '|' :=
      htake '\t' (by decide)
    split_ifs <;> first | rfl | omega

/-- Witness for `detect_sep_ties_C10` at the tie sample `"a;b,c"` (one `;`
and one `,` both maximal): the earliest candidate `;` wins. -/
theorem detect_sep_ties_C10_witness :
    detect_sep "a;b,c" = ';' :=
  (detect_sep_ties_C10 "a;b,c" ';').2.2 (by decide) (by decide)
    (by decide) (by decide)

/-! ### Fetcher lemmas and claim C8 -/

theorem processUrlZip_skip (body : String → String) (st : Store × List Event)
    (url : String) (h : blob_exists st.1 (urlDest url) = true) :
    processUrlZip body st url = st := by
  unfold processUrlZip
  rw [if_pos h]

theorem fetchZipFold_skip (body : String → String) (urls : List String) :
    ∀ st : Store × List Event,
      (∀ url ∈ urls, blob_exists st.1 (urlDest url) = true) →
      urls.foldl (processUrlZip body) st = st := by
  induction urls with
  | nil => intro st _; rfl
  | cons u rest ih =>
    intro st h
    simp only [List.foldl_cons,
      processUrlZip_skip body st u (h u (List.mem_cons_self u rest))]
    exact ih st (fun url h' => h url (List.mem_cons_of_mem u h'))

/-- **C8** (amended)  For the check-then-skip Fetcher variant
(`01_ingest_zip.py`): a URL whose destination `zip/<last-path-segment>`
already exists triggers no network fetch and no upload and leaves the store
untouched, and a whole run over URLs whose destinations all exist returns
the store unchanged with an empty event log.  (The `01_ingest_data.py`
variant has no existence check: it always fetches and overwrites — see the
counterexample.) -/
theorem fetcher_skip_C8 (body : String → String) (urls : List String)
    (store : Store) (st : Store × List Event) (url : String)
    (h1 : blob_exists st.1 (urlDest url) = true)
    (h2 : ∀ u ∈ urls, blob_exists store (urlDest u) = true) :
    processUrlZip body st url = st
    ∧ fetchRunZip body urls store = (store, []) :=
  ⟨processUrlZip_skip body st url h1, fetchZipFold_skip body urls (store, []) h2⟩

/-- Witness for `fetcher_skip_C8`: one URL whose destination `zip/f.zip`
already holds a blob; the run does nothing. -/
theorem fetcher_skip_C8_witness :
    fetchRunZip (fun _ => "new") ["https://host/x/f.zip"] [("zip/f.zip", "old")]
      = ([("zip/f.zip", "old")], []) :=
  (fetcher_skip_C8 (fun _ => "new") ["https://host/x/f.zip"]
    [("zip/f.zip", "old")] ([("zip/f.zip", "old")], []) "https://host/x/f.zip"
    (by decide) (by decide)).2

/-- Counterexample to **C8** as stated: the claim's cited
`01_ingest_data.py` loop performs a network fetch and overwrites the stored
object even though the destination `zip/f.zip` already exists. -/
theorem fetcher_overwrite_counterexample_C8 :
    blob_exists [("zip/f.zip", "old")] (urlDest "https://host/x/f.zip") = true
    ∧ (fetchRunData (fun _ => "new") ["https://host/x/f.zip"]
        [("zip/f.zip", "old")]).2
      = [Event.fetch "https://host/x/f.zip", Event.upload "zip/f.zip"]
    ∧ storeGet (fetchRunData (fun _ => "new") ["https://host/x/f.zip"]
        [("zip/f.zip", "old")]).1 "zip/f.zip" = some "new" := by decide

/-! ### Entry-path normalization and claim C9 -/

/-- Modelled from the claim's wording, not from the source, for comparison
with `normalizeChars`: strip exactly one leading `./` when present, else
strip leading backslashes, then convert every backslash; any other leading
combination keeps the name. -/
def specNormalizeChars (cs : List Char) : List Char :=
  (if cs.take 2 = ['.', '/'] then cs.drop 2
   else cs.dropWhile (fun c => c = '\\')).map (fun c => if c = '\\' then '/' else c)

theorem dropWhile_strip_append (pre rest : List Char)
    (hpre : ∀ ch ∈ pre, isStripChar ch = true)
    (hrest : ∀ ch, rest.head? = some ch → isStripChar ch = false) :
    (pre ++ rest).dropWhile isStripChar = rest := by
  induction pre with
  | nil =>
    cases rest with
    | nil => rfl
    | cons r rs =>
      simp only [List.nil_append, List.dropWhile_cons, hrest r rfl,
        Bool.false_eq_true, if_false]
  | cons p ps ih =>
    simp only [List.cons_append, List.dropWhile_cons,
      hpre p (List.mem_cons_self p ps), if_true]
    exact ih (fun ch h => hpre ch (List.mem_cons_of_mem p h))

/-- **C9** (amended)  The Extractor's internal-path normalization
(`lstrip("./\\")` then backslash conversion) removes the **longest leading
run** of characters drawn from `.`, `/`, `\` — not merely one leading `./`
or leading backslashes — and then converts every remaining backslash to
`/`; the destination path is the per-archive prefix `unzip/<base>/`
followed by the normalized internal path. -/
theorem entry_normalization_C9 (pre rest : List Char) (ar : Archive) (e : Entry)
    (hpre : ∀ ch ∈ pre, isStripChar ch = true)
    (hrest : ∀ ch, rest.head? = some ch → isStripChar ch = false) :
    normalizeChars (pre ++ rest)
      = rest.map (fun ch => if ch = '\\' then '/' else ch)
    ∧ entryDest ar e
      = unzipRoot ++ zipBaseOf ar ++ "/" ++ normalizeInternal e.filename := by
  constructor
  · unfold normalizeChars
    rw [dropWhile_strip_append pre rest hpre hrest]
  · rfl

/-- Witness for `entry_normalization_C9`: the run `..` of strip characters
is removed wholesale before the first ordinary character. -/
theorem entry_normalization_C9_witness :
    normalizeChars (['.', '.'] ++ ['a'])
      = ['a'].map (fun ch => if ch = '\\' then '/' else ch) :=
  (entry_normalization_C9 ['.', '.'] ['a'] ⟨"zip/a.zip", []⟩ ⟨"f", false, "d"⟩
    (by decide) (by decide)).1

/-- Counterexample to **C9** as stated: the entry name `..a` begins with
neither `./` nor a backslash, so by the claim it should keep its name
intact, yet the code's `lstrip("./\\")` strips both leading dots. -/
theorem normalize_lstrip_counterexample_C9 :
    normalizeChars ['.', '.', 'a'] = ['a']
    ∧ specNormalizeChars ['.', '.', 'a'] = ['.', '.', 'a']
    ∧ normalizeChars ['.', '.', 'a'] ≠ specNormalizeChars ['.', '.', 'a'] := by
  decide

end EauFrance
